import Mathlib

/-
  A shallow embedding of the memfs crate (xyncro/memfs), centred on the
  path-resolution engine of `src/directory.rs` together with the node /
  file-system surface of `src/node.rs`, `src/file.rs` and
  `src/file_system.rs`, plus the alternative blanket `Root` implementation
  of `src/internal/node/root.rs`.

  Modelling decisions:
  * Reference-counted handles (`Arc<RwLock<Internal<D, F>>>`) are modelled
    as natural-number node ids into a heap; a `Directory<D, F>` handle is a
    directory id, a `File<D, F>` handle is a file id.  Node identity (the
    "same underlying node" of the spec) is id equality.
  * The heap is a record of total functions from ids to node records plus a
    fresh-id counter `next`; ids at or above `next` hold inert default
    records.  A strong handle in Rust always dereferences successfully, so
    dereferencing `dirs`/`files` is total, exactly like `self.read()` in
    the source.  Weak references (`Reference`, i.e. `Weak<..>`) are ids
    whose `upgrade` consults the `dirAlive` predicate, mirroring
    `Weak::upgrade` returning `None` once the directory has been dropped.
  * The payload cells (`value: Value<D>` on directories, `_data: F` on
    files) are opaque to every claim treated here and are omitted from the
    records; no modelled operation reads or writes them.
  * `Internal.weak` (the self weak-reference installed by
    `Arc::new_cyclic`) always upgrades to the directory itself, so where
    the source uses `this.weak.clone()` to build a child's parent edge the
    model uses the directory's own id.
  * The sequential semantics models each `async` operation as an atomic
    state transformer; the per-node `RwLock` acquisitions of the source
    serialize the accesses that the claims describe.
-/

namespace Memfs

/-- A `Node<D, F>` handle: `Directory(..)` or `File(..)` (src/node.rs),
carrying the id of the underlying shared node. -/
inductive Node where
  | directory (nid : Nat)
  | file (nid : Nat)
deriving DecidableEq, Repr

/-- The id of the underlying shared allocation of a node handle. -/
def Node.nid : Node → Nat
  | Node.directory d => d
  | Node.file f => f

/-- `Internal<D, F>` (src/directory.rs): a directory's children map and its
optional parent edge `Option<(String, Reference<D, F>)>`.  The `value`
payload cell is omitted (opaque to the claims) and the `weak`
self-reference is represented by the directory's own id. -/
structure DirInternal where
  children : List (String × Node)
  parent : Option (String × Nat)
deriving DecidableEq, Repr

/-- `FileInternal<D, F>` (src/file.rs): the mandatory parent edge
`(String, DirectoryWeak<D, F>)`; the `_data` payload is omitted. -/
structure FileInternal where
  parent : String × Nat
deriving DecidableEq, Repr

/-- The heap of all nodes: total maps from ids to records, the liveness
predicate backing `Weak::upgrade`, and the fresh-id counter. -/
structure FS where
  dirs : Nat → DirInternal
  files : Nat → FileInternal
  dirAlive : Nat → Bool
  next : Nat

/-- The completely empty heap, before even the root is created. -/
def FS.blank : FS where
  dirs := fun _ => { children := [], parent := none }
  files := fun _ => { parent := ("", 0) }
  dirAlive := fun _ => false
  next := 0

/-- `HashMap::get` on a children map (first—and, keys being unique,
only—binding of the name). -/
def Children.get (cs : List (String × Node)) (name : String) : Option Node :=
  match cs with
  | [] => none
  | (n, node) :: rest => if n = name then some node else Children.get rest name

/-- `Directory::create` (src/directory.rs): allocate a fresh directory with
an empty children map and the given parent edge, returning the updated heap
and the new directory's id.  `Arc::new_cyclic` installs the self
weak-reference, so the new id is alive. -/
def Directory.create (fs : FS) (parent : Option (String × Nat)) : FS × Nat :=
  let nid := fs.next
  ({ fs with
      dirs := fun i => if i = nid then { children := [], parent := parent } else fs.dirs i,
      dirAlive := fun i => if i = nid then true else fs.dirAlive i,
      next := nid + 1 },
   nid)

/-- `Directory::create_root` (src/directory.rs): `create(None, None)`. -/
def Directory.create_root (fs : FS) : FS × Nat :=
  Directory.create fs none

/-- `File::create` (src/file.rs): allocate a fresh file with the given
mandatory parent edge. -/
def File.create (fs : FS) (parent : String × Nat) : FS × Nat :=
  let nid := fs.next
  ({ fs with
      files := fun i => if i = nid then { parent := parent } else fs.files i,
      next := nid + 1 },
   nid)

/-- `FileSystem::new` (src/file_system.rs): a fresh tree whose root is
`Directory::create_root()`. -/
def FileSystem.new : FS × Nat :=
  Directory.create_root FS.blank

/-- The heap of a freshly constructed `FileSystem` (root id 0). -/
def FS0 : FS := FileSystem.new.1

/-- `Child::parent` for `Directory` (src/directory.rs): read the stored
parent edge and upgrade its weak reference. -/
def Directory.parent (fs : FS) (d : Nat) : Option Nat :=
  match (fs.dirs d).parent with
  | some (_, p) => if fs.dirAlive p then some p else none
  | none => none

/-- `Name::name` for `Directory` (src/directory.rs). -/
def Directory.name (fs : FS) (d : Nat) : Option String :=
  ((fs.dirs d).parent).map (fun p => p.1)

/-- `Root::is_root` for `Directory` (src/directory.rs): the stored parent
edge is absent. -/
def Directory.is_root (fs : FS) (d : Nat) : Bool :=
  ((fs.dirs d).parent).isNone

/-- `Root::is_root` for `Node` (src/node.rs): delegate for directories,
constantly `false` for files. -/
def Node.is_root (fs : FS) : Node → Bool
  | Node.directory d => Directory.is_root fs d
  | Node.file _ => false

/-- The blanket `Root::is_root` of src/internal/node/root.rs, specialised
to a directory: `self.parent().map(|parent| parent.is_none())`, i.e. the
result of upgrading the parent edge is inspected instead of the stored
edge itself. -/
def Root.is_root_blanket (fs : FS) (d : Nat) : Bool :=
  (Directory.parent fs d).isNone

/-- `Directory::count` (src/directory.rs): `children.keys().len()`. -/
def Directory.count (fs : FS) (d : Nat) : Nat :=
  (fs.dirs d).children.length

/-- `Directory::count_predicate` (src/directory.rs):
`children.values().filter(predicate).count()`. -/
def Directory.count_predicate (fs : FS) (d : Nat) (p : Node → Bool) : Nat :=
  ((fs.dirs d).children.filter (fun c => p c.2)).length

/-- `Directory::count_dir` (src/directory.rs). -/
def Directory.count_dir (fs : FS) (d : Nat) : Nat :=
  Directory.count_predicate fs d (fun n =>
    match n with
    | Node.directory _ => true
    | Node.file _ => false)

/-- `Directory::count_file` (src/directory.rs). -/
def Directory.count_file (fs : FS) (d : Nat) : Nat :=
  Directory.count_predicate fs d (fun n =>
    match n with
    | Node.directory _ => false
    | Node.file _ => true)

end Memfs

namespace Memfs

/-- `GetType` (src/directory.rs): the node kind requested by the caller. -/
inductive GetType where
  | Directory
  | File
deriving DecidableEq, Repr

/-- `GetAction` (src/directory.rs): the policy applied to a missing named
segment.  The source declares exactly these two variants. -/
inductive GetAction where
  | CreateDefault
  | ReturnNone
deriving DecidableEq, Repr

/-- `GetPosition` (src/directory.rs): `Child` when the named segment is the
final component (endpoint), `Parent` when more components remain
(intermediate). -/
inductive GetPosition where
  | Child
  | Parent
deriving DecidableEq, Repr

/-- `GetPosition::from_next` (src/directory.rs): classify by peeking at the
next component. -/
def GetPosition.from_next (component : Option Unit) : GetPosition :=
  match component with
  | some _ => GetPosition.Parent
  | none => GetPosition.Child

/-- `GetError` (src/directory.rs). -/
inductive GetError where
  | UnexpectedFile
  | UnexpectedOrphan
  | UnexpectedPrefixPart
  | UnexpectedRoot
  | EndpointNotFound
  | IntermediateNotFound
  | Other
deriving DecidableEq, Repr

/-- `GetDirError` (src/directory.rs). -/
inductive GetDirError where
  | UnexpectedFile
  | Get (err : GetError)
deriving DecidableEq, Repr

/-- `GetFileError` (src/directory.rs). -/
inductive GetFileError where
  | UnexpectedDirectory
  | Get (err : GetError)
deriving DecidableEq, Repr

/-- `std::path::Component`: the component alphabet consumed by
`get_node`.  (`Prefix(..)` is rendered `PrefixPart` here; its payload is
irrelevant because the walk rejects any prefix outright.) -/
inductive Component where
  | CurDir
  | RootDir
  | ParentDir
  | PrefixPart
  | Normal (name : String)
deriving DecidableEq, Repr

/-- `Directory::get_node_named_child` (src/directory.rs): read-locked
lookup of `name` in the children map. -/
def Directory.get_node_named_child (fs : FS) (d : Nat) (name : String) : Option Node :=
  Children.get (fs.dirs d).children name

/-- Insert a (fresh) binding into a directory children map, as the vacant
branch of `HashMap::try_insert` does under the write lock. -/
def FS.insertChild (fs : FS) (d : Nat) (name : String) (node : Node) : FS :=
  { fs with
      dirs := fun i =>
        if i = d then
          { children := (name, node) :: (fs.dirs i).children, parent := (fs.dirs i).parent }
        else fs.dirs i }

/-- `Directory::get_node_named_child_action` (src/directory.rs).  Under
`CreateDefault` the source constructs a node whose parent edge is
`(name, this.weak)` and then runs `children.try_insert(name, node)` under
the write lock: if the entry is occupied the existing node is returned
(`err.entry.get().clone()`) and the freshly constructed node is dropped —
the model therefore allocates only in the vacant branch, where the new
node is inserted and returned.  Under `ReturnNone` the walk yields `None`
without touching the heap. -/
def Directory.get_node_named_child_action (fs : FS) (d : Nat) (name : String)
    (get_action : GetAction) (get_type : GetType) :
    FS × Except GetError (Option Node) :=
  match get_action with
  | GetAction.CreateDefault =>
    match Children.get (fs.dirs d).children name with
    | some existing => (fs, Except.ok (some existing))
    | none =>
      match get_type with
      | GetType.Directory =>
        let created := Directory.create fs (some (name, d))
        (FS.insertChild created.1 d name (Node.directory created.2),
         Except.ok (some (Node.directory created.2)))
      | GetType.File =>
        let created := File.create fs (name, d)
        (FS.insertChild created.1 d name (Node.file created.2),
         Except.ok (some (Node.file created.2)))
  | GetAction.ReturnNone => (fs, Except.ok none)

/-- `Directory::get_node_named` (src/directory.rs): fast-path lookup of the
existing child, else apply the action — with the requested `GetType` at the
endpoint (`Child` position) and `GetType::Directory` forced at an
intermediate (`Parent` position). -/
def Directory.get_node_named (fs : FS) (d : Nat) (name : String)
    (get_position : GetPosition) (get_action : GetAction) (get_type : GetType) :
    FS × Except GetError (Option Node) :=
  match Directory.get_node_named_child fs d name with
  | some node => (fs, Except.ok (some node))
  | none =>
    match get_position with
    | GetPosition.Child =>
      Directory.get_node_named_child_action fs d name get_action get_type
    | GetPosition.Parent =>
      Directory.get_node_named_child_action fs d name get_action GetType.Directory

/-- `Directory::get_node_root` (src/directory.rs). -/
def Directory.get_node_root (fs : FS) (d : Nat) : Except GetError (Option Node) :=
  match Directory.is_root fs d with
  | true => Except.ok (some (Node.directory d))
  | false => Except.error GetError.UnexpectedRoot

/-- `Directory::get_node_parent` (src/directory.rs). -/
def Directory.get_node_parent (fs : FS) (d : Nat) : Except GetError (Option Node) :=
  match Directory.parent fs d with
  | some parent => Except.ok (some (Node.directory parent))
  | none => Except.error GetError.UnexpectedOrphan

/-- The component loop of `Directory::get_node` (src/directory.rs),
threading the heap through each step.  `current` starts as
`Some(Node::Directory(self))`; the walk stops at the first error, returns
`Ok(None)` as soon as `current` is `None`, and otherwise dispatches on the
component exactly as the source `match` does (`peek` becomes the head of
the remaining components). -/
def Directory.get_node_loop (fs : FS) (current : Option Node)
    (components : List Component) (get_action : GetAction) (get_type : GetType) :
    FS × Except GetError (Option Node) :=
  match components with
  | [] => (fs, Except.ok current)
  | comp :: rest =>
    match current with
    | some (Node.directory d) =>
      match comp with
      | Component.CurDir =>
        Directory.get_node_loop fs (some (Node.directory d)) rest get_action get_type
      | Component.PrefixPart => (fs, Except.error GetError.UnexpectedPrefixPart)
      | Component.RootDir =>
        match Directory.get_node_root fs d with
        | Except.ok cur => Directory.get_node_loop fs cur rest get_action get_type
        | Except.error e => (fs, Except.error e)
      | Component.ParentDir =>
        match Directory.get_node_parent fs d with
        | Except.ok cur => Directory.get_node_loop fs cur rest get_action get_type
        | Except.error e => (fs, Except.error e)
      | Component.Normal name =>
        let pos := GetPosition.from_next (rest.head?.map (fun _ => ()))
        match Directory.get_node_named fs d name pos get_action get_type with
        | (fs1, Except.ok cur) => Directory.get_node_loop fs1 cur rest get_action get_type
        | (fs1, Except.error e) => (fs1, Except.error e)
    | some (Node.file _) => (fs, Except.error GetError.UnexpectedFile)
    | none => (fs, Except.ok none)

/-- `Directory::get_node` (src/directory.rs). -/
def Directory.get_node (fs : FS) (d : Nat) (path : List Component)
    (get_action : GetAction) (get_type : GetType) :
    FS × Except GetError (Option Node) :=
  Directory.get_node_loop fs (some (Node.directory d)) path get_action get_type

/-- `Directory::get` (src/directory.rs): resolution under
`GetAction::ReturnNone`. -/
def Directory.get (fs : FS) (d : Nat) (path : List Component) (get_type : GetType) :
    FS × Except GetError (Option Node) :=
  Directory.get_node fs d path GetAction.ReturnNone get_type

/-- `Directory::get_default` (src/directory.rs): resolution under
`GetAction::CreateDefault`, mapping `Ok(None)` to `GetError::Other`. -/
def Directory.get_default (fs : FS) (d : Nat) (path : List Component) (get_type : GetType) :
    FS × Except GetError Node :=
  match Directory.get_node fs d path GetAction.CreateDefault get_type with
  | (fs1, Except.ok (some node)) => (fs1, Except.ok node)
  | (fs1, Except.ok none) => (fs1, Except.error GetError.Other)
  | (fs1, Except.error err) => (fs1, Except.error err)

/-- `Directory::get_dir` (src/directory.rs). -/
def Directory.get_dir (fs : FS) (d : Nat) (path : List Component) :
    FS × Except GetDirError (Option Nat) :=
  match Directory.get_node fs d path GetAction.ReturnNone GetType.Directory with
  | (fs1, Except.ok (some (Node.directory dir))) => (fs1, Except.ok (some dir))
  | (fs1, Except.ok (some (Node.file _))) => (fs1, Except.error GetDirError.UnexpectedFile)
  | (fs1, Except.ok none) => (fs1, Except.ok none)
  | (fs1, Except.error err) => (fs1, Except.error (GetDirError.Get err))

/-- `Directory::get_dir_default` (src/directory.rs). -/
def Directory.get_dir_default (fs : FS) (d : Nat) (path : List Component) :
    FS × Except GetDirError Nat :=
  match Directory.get_node fs d path GetAction.CreateDefault GetType.Directory with
  | (fs1, Except.ok (some (Node.directory dir))) => (fs1, Except.ok dir)
  | (fs1, Except.ok (some (Node.file _))) => (fs1, Except.error GetDirError.UnexpectedFile)
  | (fs1, Except.ok none) => (fs1, Except.error (GetDirError.Get GetError.Other))
  | (fs1, Except.error err) => (fs1, Except.error (GetDirError.Get err))

/-- `Directory::get_file` (src/directory.rs). -/
def Directory.get_file (fs : FS) (d : Nat) (path : List Component) :
    FS × Except GetFileError (Option Nat) :=
  match Directory.get_node fs d path GetAction.ReturnNone GetType.File with
  | (fs1, Except.ok (some (Node.directory _))) =>
    (fs1, Except.error GetFileError.UnexpectedDirectory)
  | (fs1, Except.ok (some (Node.file file))) => (fs1, Except.ok (some file))
  | (fs1, Except.ok none) => (fs1, Except.ok none)
  | (fs1, Except.error err) => (fs1, Except.error (GetFileError.Get err))

/-- `Directory::get_file_default` (src/directory.rs). -/
def Directory.get_file_default (fs : FS) (d : Nat) (path : List Component) :
    FS × Except GetFileError Nat :=
  match Directory.get_node fs d path GetAction.CreateDefault GetType.File with
  | (fs1, Except.ok (some (Node.directory _))) =>
    (fs1, Except.error GetFileError.UnexpectedDirectory)
  | (fs1, Except.ok (some (Node.file file))) => (fs1, Except.ok file)
  | (fs1, Except.ok none) => (fs1, Except.error (GetFileError.Get GetError.Other))
  | (fs1, Except.error err) => (fs1, Except.error (GetFileError.Get err))

end Memfs

namespace Memfs

-- ---------------------------------------------------------------------------
-- Helper lemmas about single named-segment steps
-- ---------------------------------------------------------------------------

/-- Under `ReturnNone`, a named-segment step returns the read-locked lookup
result and leaves the heap untouched. -/
theorem named_return_none (fs : FS) (d : Nat) (name : String)
    (pos : GetPosition) (gt : GetType) :
    Directory.get_node_named fs d name pos GetAction.ReturnNone gt
      = (fs, Except.ok (Directory.get_node_named_child fs d name)) := by
  unfold Directory.get_node_named
  cases h : Directory.get_node_named_child fs d name with
  | some node => rfl
  | none => cases pos <;> rfl

/-- A named-segment step never produces an error. -/
theorem named_no_error (fs : FS) (d : Nat) (name : String)
    (pos : GetPosition) (ga : GetAction) (gt : GetType) (e : GetError) :
    (Directory.get_node_named fs d name pos ga gt).2 = Except.error e → False := by
  unfold Directory.get_node_named Directory.get_node_named_child_action
  cases h : Directory.get_node_named_child fs d name with
  | some node => simp
  | none =>
    unfold Directory.get_node_named_child at h
    cases pos <;> cases ga <;> simp <;> rw [h] <;> cases gt <;> simp

/-- Under `CreateDefault`, a named-segment step always yields a node. -/
theorem named_create_default_some (fs : FS) (d : Nat) (name : String)
    (pos : GetPosition) (gt : GetType) :
    ∃ n, (Directory.get_node_named fs d name pos GetAction.CreateDefault gt).2
        = Except.ok (some n) := by
  unfold Directory.get_node_named Directory.get_node_named_child_action
  cases h : Directory.get_node_named_child fs d name with
  | some node => exact ⟨node, rfl⟩
  | none =>
    unfold Directory.get_node_named_child at h
    cases pos <;> simp <;> rw [h] <;> cases gt <;> simp

/-- `get_node_root` can only fail with `UnexpectedRoot`. -/
theorem root_error_shape (fs : FS) (d : Nat) (e : GetError) :
    Directory.get_node_root fs d = Except.error e → e = GetError.UnexpectedRoot := by
  unfold Directory.get_node_root
  cases Directory.is_root fs d <;> intro h <;> simp_all

/-- `get_node_parent` can only fail with `UnexpectedOrphan`. -/
theorem parent_error_shape (fs : FS) (d : Nat) (e : GetError) :
    Directory.get_node_parent fs d = Except.error e → e = GetError.UnexpectedOrphan := by
  unfold Directory.get_node_parent
  cases Directory.parent fs d <;> intro h <;> simp_all

-- ---------------------------------------------------------------------------
-- Walk-level helper lemmas
-- ---------------------------------------------------------------------------

/-- A walk under `ReturnNone` never changes the heap. -/
theorem loop_return_none_pure (components : List Component) :
    ∀ (fs : FS) (current : Option Node) (gt : GetType),
      (Directory.get_node_loop fs current components GetAction.ReturnNone gt).1 = fs := by
  induction components with
  | nil => intro fs current gt; rfl
  | cons comp rest ih =>
    intro fs current gt
    match current with
    | none => rfl
    | some (Node.file f) => rfl
    | some (Node.directory d) =>
      cases comp with
      | CurDir => exact ih fs _ gt
      | PrefixPart => rfl
      | RootDir =>
        simp only [Directory.get_node_loop]
        cases Directory.get_node_root fs d with
        | ok cur => exact ih fs cur gt
        | error e => rfl
      | ParentDir =>
        simp only [Directory.get_node_loop]
        cases Directory.get_node_parent fs d with
        | ok cur => exact ih fs cur gt
        | error e => rfl
      | Normal name =>
        simp only [Directory.get_node_loop, named_return_none]
        exact ih fs _ gt

/-- Every error a walk can return is one of the four structural
walk errors; in particular `IntermediateNotFound`, `EndpointNotFound` and
`Other` are never produced. -/
theorem loop_error_shapes (components : List Component) :
    ∀ (fs : FS) (current : Option Node) (ga : GetAction) (gt : GetType) (e : GetError),
      (Directory.get_node_loop fs current components ga gt).2 = Except.error e →
      e = GetError.UnexpectedFile ∨ e = GetError.UnexpectedOrphan ∨
      e = GetError.UnexpectedPrefixPart ∨ e = GetError.UnexpectedRoot := by
  induction components with
  | nil => intro fs current ga gt e h; simp [Directory.get_node_loop] at h
  | cons comp rest ih =>
    intro fs current ga gt e h
    match current with
    | none => simp [Directory.get_node_loop] at h
    | some (Node.file f) =>
      simp [Directory.get_node_loop] at h
      simp [h]
    | some (Node.directory d) =>
      cases comp with
      | CurDir => exact ih fs _ ga gt e h
      | PrefixPart =>
        simp [Directory.get_node_loop] at h
        simp [h]
      | RootDir =>
        simp only [Directory.get_node_loop] at h
        cases hr : Directory.get_node_root fs d with
        | ok cur => rw [hr] at h; exact ih fs cur ga gt e h
        | error e1 =>
          rw [hr] at h
          have h2 : e1 = e := by simpa using h
          exact Or.inr (Or.inr (Or.inr (h2 ▸ root_error_shape fs d e1 hr)))
      | ParentDir =>
        simp only [Directory.get_node_loop] at h
        cases hp : Directory.get_node_parent fs d with
        | ok cur => rw [hp] at h; exact ih fs cur ga gt e h
        | error e1 =>
          rw [hp] at h
          have h2 : e1 = e := by simpa using h
          exact Or.inr (Or.inl (h2 ▸ parent_error_shape fs d e1 hp))
      | Normal name =>
        simp only [Directory.get_node_loop] at h
        rcases hn : Directory.get_node_named fs d name
            (GetPosition.from_next (rest.head?.map fun _ => ())) ga gt with ⟨fs1, r⟩
        rw [hn] at h
        cases r with
        | ok cur => exact ih fs1 cur ga gt e h
        | error e1 =>
          exact absurd (by rw [hn]) (fun hh => named_no_error fs d name _ ga gt e1 hh)

/-- Under `CreateDefault`, a walk whose current node is present never
returns `Ok(None)`. -/
theorem loop_create_default_not_none (components : List Component) :
    ∀ (fs : FS) (current : Option Node) (gt : GetType), current ≠ none →
      (Directory.get_node_loop fs current components GetAction.CreateDefault gt).2
        ≠ Except.ok none := by
  induction components with
  | nil =>
    intro fs current gt hcur h
    simp [Directory.get_node_loop] at h
    exact hcur h
  | cons comp rest ih =>
    intro fs current gt hcur h
    match current with
    | none => exact hcur rfl
    | some (Node.file f) => simp [Directory.get_node_loop] at h
    | some (Node.directory d) =>
      cases comp with
      | CurDir => exact ih fs _ gt (by simp) h
      | PrefixPart => simp [Directory.get_node_loop] at h
      | RootDir =>
        simp only [Directory.get_node_loop] at h
        cases hr : Directory.get_node_root fs d with
        | ok cur =>
          rw [hr] at h
          unfold Directory.get_node_root at hr
          cases hb : Directory.is_root fs d <;> rw [hb] at hr <;> simp at hr
          exact ih fs cur gt (by rw [← hr]; simp) h
        | error e1 => rw [hr] at h; simp at h
      | ParentDir =>
        simp only [Directory.get_node_loop] at h
        cases hp : Directory.get_node_parent fs d with
        | ok cur =>
          rw [hp] at h
          unfold Directory.get_node_parent at hp
          cases hb : Directory.parent fs d <;> rw [hb] at hp <;> simp at hp
          exact ih fs cur gt (by rw [← hp]; simp) h
        | error e1 => rw [hp] at h; simp at h
      | Normal name =>
        simp only [Directory.get_node_loop] at h
        rcases named_create_default_some fs d name
            (GetPosition.from_next (rest.head?.map fun _ => ())) gt with ⟨n, hn⟩
        rcases hm : Directory.get_node_named fs d name
            (GetPosition.from_next (rest.head?.map fun _ => ())) GetAction.CreateDefault gt
            with ⟨fs1, r⟩
        rw [hm] at h hn
        simp at hn
        rw [hn] at h
        exact ih fs1 (some n) gt (by simp) h

/-- `Directory.get_node` under `CreateDefault` never yields `Ok(None)`. -/
theorem get_node_create_default_not_none (fs : FS) (d : Nat) (path : List Component)
    (gt : GetType) :
    (Directory.get_node fs d path GetAction.CreateDefault gt).2 ≠ Except.ok none :=
  loop_create_default_not_none path fs (some (Node.directory d)) gt (by simp)

/-- `Directory.get_node` only fails with one of the four walk errors. -/
theorem get_node_error_shapes (fs : FS) (d : Nat) (path : List Component)
    (ga : GetAction) (gt : GetType) (e : GetError) :
    (Directory.get_node fs d path ga gt).2 = Except.error e →
    e = GetError.UnexpectedFile ∨ e = GetError.UnexpectedOrphan ∨
    e = GetError.UnexpectedPrefixPart ∨ e = GetError.UnexpectedRoot :=
  loop_error_shapes path fs (some (Node.directory d)) ga gt e

/-- C8: Fresh-tree root invariants — for a freshly constructed
`FileSystem` (root id 0), `is_root()` is true, `parent()` is none, and
`count()`, `count_dir()`, `count_file()` are all 0. -/
theorem c8_fresh_root_invariants :
    Directory.is_root FS0 0 = true ∧
    Directory.parent FS0 0 = none ∧
    Directory.count FS0 0 = 0 ∧
    Directory.count_dir FS0 0 = 0 ∧
    Directory.count_file FS0 0 = 0 := by
  refine ⟨rfl, rfl, rfl, rfl, rfl⟩

/-- C9: Read-only resolution is mutation-free — `get`, `get_dir` and
`get_file` (all `GetAction::ReturnNone`) return the heap exactly as it
was, whatever the outcome. -/
theorem c9_read_only_resolution_mutation_free (fs : FS) (d : Nat)
    (path : List Component) (gt : GetType) :
    (Directory.get fs d path gt).1 = fs ∧
    (Directory.get_dir fs d path).1 = fs ∧
    (Directory.get_file fs d path).1 = fs := by
  have hp : ∀ gt', (Directory.get_node fs d path GetAction.ReturnNone gt').1 = fs :=
    fun gt' => loop_return_none_pure path fs (some (Node.directory d)) gt'
  refine ⟨hp gt, ?_, ?_⟩
  · rcases h : Directory.get_node fs d path GetAction.ReturnNone GetType.Directory with ⟨fs1, r⟩
    have h1 : fs1 = fs := by
      have h2 := hp GetType.Directory
      rw [h] at h2
      exact h2
    cases r with
    | ok o =>
      cases o with
      | none => simp [Directory.get_dir, h, h1]
      | some n => cases n <;> simp [Directory.get_dir, h, h1]
    | error e => simp [Directory.get_dir, h, h1]
  · rcases h : Directory.get_node fs d path GetAction.ReturnNone GetType.File with ⟨fs1, r⟩
    have h1 : fs1 = fs := by
      have h2 := hp GetType.File
      rw [h] at h2
      exact h2
    cases r with
    | ok o =>
      cases o with
      | none => simp [Directory.get_file, h, h1]
      | some n => cases n <;> simp [Directory.get_file, h, h1]
    | error e => simp [Directory.get_file, h, h1]

/-- C10: under `CreateDefault` the walk's current node never becomes
`None`, so `get_default`, `get_dir_default` and `get_file_default` never
surface `GetError::Other`: each either succeeds, reports a type mismatch,
or reports one of the four structural walk errors. -/
theorem c10_create_default_never_other (fs : FS) (d : Nat)
    (path : List Component) (gt : GetType) :
    ((∃ n, (Directory.get_default fs d path gt).2 = Except.ok n) ∨
      (∃ e, (Directory.get_default fs d path gt).2 = Except.error e ∧
        (e = GetError.UnexpectedFile ∨ e = GetError.UnexpectedOrphan ∨
         e = GetError.UnexpectedPrefixPart ∨ e = GetError.UnexpectedRoot))) ∧
    ((∃ n, (Directory.get_dir_default fs d path).2 = Except.ok n) ∨
      (Directory.get_dir_default fs d path).2 = Except.error GetDirError.UnexpectedFile ∨
      (∃ e, (Directory.get_dir_default fs d path).2 = Except.error (GetDirError.Get e) ∧
        (e = GetError.UnexpectedFile ∨ e = GetError.UnexpectedOrphan ∨
         e = GetError.UnexpectedPrefixPart ∨ e = GetError.UnexpectedRoot))) ∧
    ((∃ n, (Directory.get_file_default fs d path).2 = Except.ok n) ∨
      (Directory.get_file_default fs d path).2 = Except.error GetFileError.UnexpectedDirectory ∨
      (∃ e, (Directory.get_file_default fs d path).2 = Except.error (GetFileError.Get e) ∧
        (e = GetError.UnexpectedFile ∨ e = GetError.UnexpectedOrphan ∨
         e = GetError.UnexpectedPrefixPart ∨ e = GetError.UnexpectedRoot))) := by
  refine ⟨?_, ?_, ?_⟩
  · rcases h : Directory.get_node fs d path GetAction.CreateDefault gt with ⟨fs1, r⟩
    cases r with
    | ok o =>
      cases o with
      | none =>
        exact absurd (by rw [h]) (get_node_create_default_not_none fs d path gt)
      | some n => exact Or.inl ⟨n, by simp [Directory.get_default, h]⟩
    | error e =>
      have he := get_node_error_shapes fs d path GetAction.CreateDefault gt e (by rw [h])
      exact Or.inr ⟨e, by simp [Directory.get_default, h], he⟩
  · rcases h : Directory.get_node fs d path GetAction.CreateDefault GetType.Directory with ⟨fs1, r⟩
    cases r with
    | ok o =>
      cases o with
      | none =>
        exact absurd (by rw [h])
          (get_node_create_default_not_none fs d path GetType.Directory)
      | some n =>
        cases n with
        | directory x => exact Or.inl ⟨x, by simp [Directory.get_dir_default, h]⟩
        | file x => exact Or.inr (Or.inl (by simp [Directory.get_dir_default, h]))
    | error e =>
      have he := get_node_error_shapes fs d path GetAction.CreateDefault GetType.Directory e
        (by rw [h])
      exact Or.inr (Or.inr ⟨e, by simp [Directory.get_dir_default, h], he⟩)
  · rcases h : Directory.get_node fs d path GetAction.CreateDefault GetType.File with ⟨fs1, r⟩
    cases r with
    | ok o =>
      cases o with
      | none =>
        exact absurd (by rw [h])
          (get_node_create_default_not_none fs d path GetType.File)
      | some n =>
        cases n with
        | directory x => exact Or.inr (Or.inl (by simp [Directory.get_file_default, h]))
        | file x => exact Or.inl ⟨x, by simp [Directory.get_file_default, h]⟩
    | error e =>
      have he := get_node_error_shapes fs d path GetAction.CreateDefault GetType.File e
        (by rw [h])
      exact Or.inr (Or.inr ⟨e, by simp [Directory.get_file_default, h], he⟩)

/-- C2 counterexample: resolution offers no error-on-missing policy.  On a
fresh tree, for a missing final segment ("a") and a missing non-final
segment ("a" of "a/b"), BOTH values of the code's `GetAction` (its only
two variants, `ReturnNone` and `CreateDefault`) produce `Ok` outcomes —
never `EndpointNotFound`, never `IntermediateNotFound` — contradicting the
claimed three-valued `{CreateDefault, ReturnError, ReturnNone}` policy
surface. -/
theorem c2_counterexample :
    (Directory.get_node FS0 0 [Component.Normal "a"]
        GetAction.ReturnNone GetType.File).2 = Except.ok none ∧
    (Directory.get_node FS0 0 [Component.Normal "a"]
        GetAction.CreateDefault GetType.File).2 = Except.ok (some (Node.file 1)) ∧
    (Directory.get_node FS0 0 [Component.Normal "a", Component.Normal "b"]
        GetAction.ReturnNone GetType.File).2 = Except.ok none ∧
    (Directory.get_node FS0 0 [Component.Normal "a", Component.Normal "b"]
        GetAction.CreateDefault GetType.File).2 = Except.ok (some (Node.file 2)) :=
  ⟨rfl, rfl, rfl, rfl⟩

/-- C2 (amended): path resolution takes a single two-valued action —
`GetAction` is exhausted by `CreateDefault` and `ReturnNone`, applied
uniformly to intermediate and endpoint components alike — and no
resolution outcome is ever `IntermediateNotFound` or `EndpointNotFound`
(those `GetError` variants are declared but unreachable): every error is
one of the four structural walk errors. -/
theorem c2_amended_policy_surface (fs : FS) (current : Option Node)
    (comps : List Component) (ga : GetAction) (gt : GetType) :
    (ga = GetAction.CreateDefault ∨ ga = GetAction.ReturnNone) ∧
    (∀ e, (Directory.get_node_loop fs current comps ga gt).2 = Except.error e →
      e = GetError.UnexpectedFile ∨ e = GetError.UnexpectedOrphan ∨
      e = GetError.UnexpectedPrefixPart ∨ e = GetError.UnexpectedRoot) := by
  constructor
  · cases ga
    · exact Or.inl rfl
    · exact Or.inr rfl
  · exact loop_error_shapes comps fs current ga gt

/-- Witness for C2 (amended): a concrete erroring walk (a `..` step at the
fresh root) falls into the four-error alternative. -/
theorem c2_amended_policy_surface_witness :
    GetError.UnexpectedOrphan = GetError.UnexpectedFile ∨
    GetError.UnexpectedOrphan = GetError.UnexpectedOrphan ∨
    GetError.UnexpectedOrphan = GetError.UnexpectedPrefixPart ∨
    GetError.UnexpectedOrphan = GetError.UnexpectedRoot :=
  (c2_amended_policy_surface FS0 (some (Node.directory 0)) [Component.ParentDir]
      GetAction.CreateDefault GetType.File).2 GetError.UnexpectedOrphan rfl

/-- C7: a `..` component from a directory whose `parent()` is absent
aborts the walk with `UnexpectedOrphan`; when the parent exists, the walk
continues with that parent as the current node. -/
theorem c7_parent_dir_step (fs : FS) (d : Nat) (rest : List Component)
    (ga : GetAction) (gt : GetType) :
    (Directory.parent fs d = none →
      Directory.get_node_loop fs (some (Node.directory d))
          (Component.ParentDir :: rest) ga gt
        = (fs, Except.error GetError.UnexpectedOrphan)) ∧
    (∀ p, Directory.parent fs d = some p →
      Directory.get_node_loop fs (some (Node.directory d))
          (Component.ParentDir :: rest) ga gt
        = Directory.get_node_loop fs (some (Node.directory p)) rest ga gt) := by
  constructor
  · intro h
    simp [Directory.get_node_loop, Directory.get_node_parent, h]
  · intro p h
    simp [Directory.get_node_loop, Directory.get_node_parent, h]

/-- Witness for C7: resolving `..` starting at the fresh root yields
`UnexpectedOrphan`. -/
theorem c7_parent_dir_step_witness :
    Directory.get_node_loop FS0 (some (Node.directory 0)) [Component.ParentDir]
        GetAction.CreateDefault GetType.File
      = (FS0, Except.error GetError.UnexpectedOrphan) :=
  (c7_parent_dir_step FS0 0 [] GetAction.CreateDefault GetType.File).1 rfl

/-- C3: with `CreateDefault`, a missing intermediate segment (`Parent`
position) is created as a Directory whatever `GetType` the caller
requested, while a missing endpoint segment (`Child` position) is created
as exactly the requested kind. -/
theorem c3_created_kinds (fs : FS) (d : Nat) (name : String) (gt : GetType)
    (hmiss : Children.get (fs.dirs d).children name = none) :
    (Directory.get_node_named fs d name GetPosition.Parent
        GetAction.CreateDefault gt).2 = Except.ok (some (Node.directory fs.next)) ∧
    (Directory.get_node_named fs d name GetPosition.Child
        GetAction.CreateDefault GetType.Directory).2
      = Except.ok (some (Node.directory fs.next)) ∧
    (Directory.get_node_named fs d name GetPosition.Child
        GetAction.CreateDefault GetType.File).2 = Except.ok (some (Node.file fs.next)) := by
  refine ⟨?_, ?_, ?_⟩ <;>
    simp [Directory.get_node_named, Directory.get_node_named_child,
      Directory.get_node_named_child_action, hmiss, Directory.create, File.create]

/-- The node that a vacant `CreateDefault` insertion constructs: a fresh
directory or file id according to the requested kind. -/
def created_node (fs : FS) (gt : GetType) : Node :=
  match gt with
  | GetType.Directory => Node.directory fs.next
  | GetType.File => Node.file fs.next

/-- The stored parent edge of a node handle (for a directory, the optional
`(name, weak)` pair; for a file, its mandatory pair). -/
def Node.parentEdge (fs : FS) : Node → Option (String × Nat)
  | Node.directory d => (fs.dirs d).parent
  | Node.file f => some (fs.files f).parent

/-- A name whose lookup misses is not among the map's keys. -/
theorem children_get_none_not_mem (cs : List (String × Node)) (name : String) :
    Children.get cs name = none → name ∉ cs.map Prod.fst := by
  induction cs with
  | nil => simp
  | cons c rest ih =>
    rcases c with ⟨n, node⟩
    by_cases hn : n = name
    · simp [Children.get, hn]
    · simp only [Children.get, if_neg hn]
      intro h
      simp only [List.map_cons, List.mem_cons]
      rintro (h1 | h1)
      · exact hn h1.symm
      · exact ih h h1

/-- Prepending a binding for an absent key keeps the key list duplicate
free. -/
theorem keys_nodup_insert (cs : List (String × Node)) (name : String) (node : Node)
    (hmiss : Children.get cs name = none) (hnd : (cs.map Prod.fst).Nodup) :
    (((name, node) :: cs).map Prod.fst).Nodup := by
  simp only [List.map_cons, List.nodup_cons]
  exact ⟨children_get_none_not_mem cs name hmiss, hnd⟩

/-- C1: at-most-once child creation via `try_insert` under the write lock.
If `name` is already bound when the insert is attempted, the existing node
is returned and the heap — in particular the children map — is left
exactly as it was; if it is vacant, the freshly constructed node (whose
parent edge points back at this directory under that name) is inserted and
returned, a second `CreateDefault` resolution of the same name returns
that very same node without further change, and key-uniqueness of every
children map is preserved, so at most one child per name ever exists. -/
theorem c1_at_most_once_creation (fs : FS) (d : Nat) (name : String)
    (gt gt' : GetType) :
    (∀ ex, Children.get (fs.dirs d).children name = some ex →
      Directory.get_node_named_child_action fs d name GetAction.CreateDefault gt
        = (fs, Except.ok (some ex))) ∧
    (Children.get (fs.dirs d).children name = none →
      (Directory.get_node_named_child_action fs d name GetAction.CreateDefault gt).2
          = Except.ok (some (created_node fs gt)) ∧
      Children.get
          (((Directory.get_node_named_child_action fs d name
              GetAction.CreateDefault gt).1).dirs d).children name
        = some (created_node fs gt) ∧
      Node.parentEdge
          (Directory.get_node_named_child_action fs d name
            GetAction.CreateDefault gt).1 (created_node fs gt)
        = some (name, d) ∧
      Directory.get_node_named_child_action
          (Directory.get_node_named_child_action fs d name
            GetAction.CreateDefault gt).1 d name GetAction.CreateDefault gt'
        = ((Directory.get_node_named_child_action fs d name
              GetAction.CreateDefault gt).1,
           Except.ok (some (created_node fs gt)))) ∧
    (∀ d2, ((fs.dirs d2).children.map Prod.fst).Nodup →
      ((((Directory.get_node_named_child_action fs d name
            GetAction.CreateDefault gt).1).dirs d2).children.map Prod.fst).Nodup) := by
  refine ⟨?_, ?_, ?_⟩
  · intro ex hex
    simp [Directory.get_node_named_child_action, hex]
  · intro hmiss
    have hfound : Children.get
        (((Directory.get_node_named_child_action fs d name
            GetAction.CreateDefault gt).1).dirs d).children name
      = some (created_node fs gt) := by
      cases gt <;>
        simp [Directory.get_node_named_child_action, hmiss, created_node,
          Directory.create, File.create, FS.insertChild, Children.get]
    refine ⟨?_, hfound, ?_, ?_⟩
    · cases gt <;>
        simp [Directory.get_node_named_child_action, hmiss, created_node,
          Directory.create, File.create]
    · cases gt with
      | Directory =>
        by_cases hd : fs.next = d <;>
          simp [Directory.get_node_named_child_action, hmiss, created_node,
            Directory.create, FS.insertChild, Node.parentEdge, hd]
      | File =>
        by_cases hd : fs.next = d <;>
          simp [Directory.get_node_named_child_action, hmiss, created_node,
            File.create, FS.insertChild, Node.parentEdge, hd]
    · rcases hres : Directory.get_node_named_child_action fs d name
          GetAction.CreateDefault gt with ⟨fs2, r⟩
      have hf2 : Children.get (fs2.dirs d).children name = some (created_node fs gt) := by
        rw [hres] at hfound
        exact hfound
      simp [Directory.get_node_named_child_action, hf2]
  · intro d2 hnd
    cases hmiss : Children.get (fs.dirs d).children name with
    | some ex => simp [Directory.get_node_named_child_action, hmiss, hnd]
    | none =>
      cases gt with
      | Directory =>
        have hdd : (((Directory.get_node_named_child_action fs d name
              GetAction.CreateDefault GetType.Directory).1).dirs d2).children
            = if d2 = d then
                (name, Node.directory fs.next) ::
                  (if d2 = fs.next then [] else (fs.dirs d2).children)
              else if d2 = fs.next then [] else (fs.dirs d2).children := by
          by_cases h1 : d2 = d <;> by_cases h2 : d2 = fs.next <;>
            simp [Directory.get_node_named_child_action, hmiss, Directory.create,
              FS.insertChild, h1, h2] <;>
            split <;> rfl
        rw [hdd]
        by_cases h1 : d2 = d
        · rw [if_pos h1, h1]
          by_cases h2 : d = fs.next
          · rw [if_pos h2]
            simp
          · rw [if_neg h2]
            exact keys_nodup_insert _ _ _ hmiss (h1 ▸ hnd)
        · rw [if_neg h1]
          by_cases h2 : d2 = fs.next
          · rw [if_pos h2]
            simp
          · rw [if_neg h2]
            exact hnd
      | File =>
        have hdd : (((Directory.get_node_named_child_action fs d name
              GetAction.CreateDefault GetType.File).1).dirs d2).children
            = if d2 = d then (name, Node.file fs.next) :: (fs.dirs d2).children
              else (fs.dirs d2).children := by
          by_cases h1 : d2 = d <;>
            simp [Directory.get_node_named_child_action, hmiss, File.create,
              FS.insertChild, h1]
        rw [hdd]
        by_cases h1 : d2 = d
        · rw [if_pos h1, h1]
          exact keys_nodup_insert _ _ _ hmiss (h1 ▸ hnd)
        · rw [if_neg h1]
          exact hnd

/-- Witness for C1: on the fresh tree a vacant insert of "a" yields file 1,
and a second create-on-demand resolution of "a" (even requesting a
Directory) returns the very same node with the heap unchanged. -/
theorem c1_at_most_once_creation_witness :
    (Directory.get_node_named_child_action FS0 0 "a"
        GetAction.CreateDefault GetType.File).2 = Except.ok (some (Node.file 1)) ∧
    Directory.get_node_named_child_action
        (Directory.get_node_named_child_action FS0 0 "a"
          GetAction.CreateDefault GetType.File).1 0 "a"
        GetAction.CreateDefault GetType.Directory
      = ((Directory.get_node_named_child_action FS0 0 "a"
            GetAction.CreateDefault GetType.File).1,
         Except.ok (some (Node.file 1))) :=
  ⟨((c1_at_most_once_creation FS0 0 "a" GetType.File GetType.Directory).2.1 rfl).1,
   ((c1_at_most_once_creation FS0 0 "a" GetType.File GetType.Directory).2.1 rfl).2.2.2⟩

/-- A walk under `ReturnNone` that succeeds with a node took the fast path
(an existing child) at every named segment, so the same walk under
`CreateDefault` returns the same node and the same (unchanged) heap. -/
theorem loop_return_none_success_create_default (components : List Component) :
    ∀ (fs : FS) (current : Option Node) (gt : GetType) (n : Node),
      Directory.get_node_loop fs current components GetAction.ReturnNone gt
        = (fs, Except.ok (some n)) →
      Directory.get_node_loop fs current components GetAction.CreateDefault gt
        = (fs, Except.ok (some n)) := by
  induction components with
  | nil => intro fs current gt n h; exact h
  | cons comp rest ih =>
    intro fs current gt n h
    match current with
    | none => simp [Directory.get_node_loop] at h
    | some (Node.file f) => simp [Directory.get_node_loop] at h
    | some (Node.directory d) =>
      cases comp with
      | CurDir => exact ih fs _ gt n h
      | PrefixPart => simp [Directory.get_node_loop] at h
      | RootDir =>
        simp only [Directory.get_node_loop] at h ⊢
        cases hr : Directory.get_node_root fs d with
        | ok cur => rw [hr] at h; exact ih fs cur gt n h
        | error e => rw [hr] at h; simp at h
      | ParentDir =>
        simp only [Directory.get_node_loop] at h ⊢
        cases hp : Directory.get_node_parent fs d with
        | ok cur => rw [hp] at h; exact ih fs cur gt n h
        | error e => rw [hp] at h; simp at h
      | Normal name =>
        simp only [Directory.get_node_loop, named_return_none] at h
        cases hc : Directory.get_node_named_child fs d name with
        | some node =>
          rw [hc] at h
          simp only [Directory.get_node_loop, Directory.get_node_named,
            Directory.get_node_named_child]
          unfold Directory.get_node_named_child at hc
          rw [hc]
          exact ih fs (some node) gt n h
        | none =>
          rw [hc] at h
          have hpure := loop_return_none_pure rest fs (none : Option Node) gt
          rcases hnone : Directory.get_node_loop fs none rest GetAction.ReturnNone gt
            with ⟨fs9, r9⟩
          cases rest with
          | nil => simp [Directory.get_node_loop] at h
          | cons c2 r2 => simp [Directory.get_node_loop] at h

/-- C6: typed accessor mismatch — when a path resolves to an existing
Directory node, `get_file` and `get_file_default` report
`UnexpectedDirectory` instead of succeeding; symmetrically, when it
resolves to a File node, `get_dir` and `get_dir_default` report
`UnexpectedFile`. -/
theorem c6_typed_accessor_mismatch (fs : FS) (d : Nat) (path : List Component)
    (x y : Nat) :
    ((Directory.get fs d path GetType.File).2
        = Except.ok (some (Node.directory x)) →
      (Directory.get_file fs d path).2
          = Except.error GetFileError.UnexpectedDirectory ∧
      (Directory.get_file_default fs d path).2
          = Except.error GetFileError.UnexpectedDirectory) ∧
    ((Directory.get fs d path GetType.Directory).2
        = Except.ok (some (Node.file y)) →
      (Directory.get_dir fs d path).2 = Except.error GetDirError.UnexpectedFile ∧
      (Directory.get_dir_default fs d path).2
          = Except.error GetDirError.UnexpectedFile) := by
  constructor
  · intro h
    have hfull : Directory.get_node fs d path GetAction.ReturnNone GetType.File
        = (fs, Except.ok (some (Node.directory x))) := by
      have h1 := loop_return_none_pure path fs (some (Node.directory d)) GetType.File
      rcases hres : Directory.get_node fs d path GetAction.ReturnNone GetType.File
        with ⟨fs1, r⟩
      unfold Directory.get at h
      rw [hres] at h
      unfold Directory.get_node at hres
      rw [hres] at h1
      simp at h h1
      rw [h1, h]
    have hcd := loop_return_none_success_create_default path fs
      (some (Node.directory d)) GetType.File (Node.directory x) hfull
    constructor
    · simp [Directory.get_file, hfull]
    · simp [Directory.get_file_default, Directory.get_node, hcd]
  · intro h
    have hfull : Directory.get_node fs d path GetAction.ReturnNone GetType.Directory
        = (fs, Except.ok (some (Node.file y))) := by
      have h1 := loop_return_none_pure path fs (some (Node.directory d)) GetType.Directory
      rcases hres : Directory.get_node fs d path GetAction.ReturnNone GetType.Directory
        with ⟨fs1, r⟩
      unfold Directory.get at h
      rw [hres] at h
      unfold Directory.get_node at hres
      rw [hres] at h1
      simp at h h1
      rw [h1, h]
    have hcd := loop_return_none_success_create_default path fs
      (some (Node.directory d)) GetType.Directory (Node.file y) hfull
    constructor
    · simp [Directory.get_dir, hfull]
    · simp [Directory.get_dir_default, Directory.get_node, hcd]

/-- The fresh tree after `get_dir_default` has created directory "x"
(id 1) under the root. -/
def FSwithDirX : FS := (Directory.get_dir_default FS0 0 [Component.Normal "x"]).1

/-- Witness for C6: "x" exists as a Directory, so the file-typed accessors
report `UnexpectedDirectory`. -/
theorem c6_typed_accessor_mismatch_witness :
    (Directory.get_file FSwithDirX 0 [Component.Normal "x"]).2
        = Except.error GetFileError.UnexpectedDirectory ∧
    (Directory.get_file_default FSwithDirX 0 [Component.Normal "x"]).2
        = Except.error GetFileError.UnexpectedDirectory :=
  (c6_typed_accessor_mismatch FSwithDirX 0 [Component.Normal "x"] 1 0).1 rfl

/-- Witness for C3: on the fresh tree, a missing "a" is created as
directory 1 in `Parent` position even when a File was requested, and as
the requested kind in `Child` position. -/
theorem c3_created_kinds_witness :
    (Directory.get_node_named FS0 0 "a" GetPosition.Parent
        GetAction.CreateDefault GetType.File).2 = Except.ok (some (Node.directory 1)) ∧
    (Directory.get_node_named FS0 0 "a" GetPosition.Child
        GetAction.CreateDefault GetType.Directory).2
      = Except.ok (some (Node.directory 1)) ∧
    (Directory.get_node_named FS0 0 "a" GetPosition.Child
        GetAction.CreateDefault GetType.File).2 = Except.ok (some (Node.file 1)) :=
  c3_created_kinds FS0 0 "a" GetType.File rfl

/-- A heap in which directory 1 still carries its parent edge
`("x", 0)` while directory 0 has been destroyed (every strong handle
dropped, so the weak reference no longer upgrades). -/
def FSDead : FS where
  dirs := fun i =>
    if i = 1 then { children := [], parent := some ("x", 0) }
    else { children := [], parent := none }
  files := fun _ => { parent := ("", 0) }
  dirAlive := fun _ => false
  next := 2

/-- C5 counterexample: the blanket `Root::is_root` of
src/internal/node/root.rs (derived from `parent()`, i.e. from the weak
upgrade) reports `true` for a directory whose stored parent edge is
present but whose parent has been destroyed — so "is_root() returns true
iff the parent edge is absent … however the handle is obtained, including
one whose stored parent directory has since been destroyed" fails for
that implementation. -/
theorem c5_counterexample :
    Root.is_root_blanket FSDead 1 = true ∧
    (FSDead.dirs 1).parent = some ("x", 0) :=
  ⟨rfl, rfl⟩

/-- C5 (amended): for `Directory::is_root` of src/directory.rs — which
reads the stored parent edge — and for `Node::is_root` of src/node.rs,
`is_root()` is true exactly when the node is a directory whose stored
parent edge is absent (files always report false), and this holds in any
heap, including one where the stored parent has been destroyed. -/
theorem c5_amended_is_root (fs : FS) (n : Node) :
    Node.is_root fs n = true ↔
      ∃ d, n = Node.directory d ∧ (fs.dirs d).parent = none := by
  cases n with
  | directory d =>
    simp [Node.is_root, Directory.is_root, Option.isNone_iff_eq_none]
  | file f => simp [Node.is_root]

/-- Witness for C5 (amended): the fresh root reports `is_root() = true`
via the stored-edge implementation. -/
theorem c5_amended_is_root_witness :
    Node.is_root FS0 (Node.directory 0) = true :=
  (c5_amended_is_root FS0 (Node.directory 0)).mpr ⟨0, rfl, rfl⟩

-- ---------------------------------------------------------------------------
-- Freshness invariant and heap monotonicity, for replaying a walk (C4)
-- ---------------------------------------------------------------------------

/-- Well-formedness: every id stored anywhere in the directory heap
(children values and parent edges) is below the fresh-id counter.  It
holds for every heap grown from `FS.blank` by the modelled operations. -/
def FS.WF (fs : FS) : Prop :=
  ∀ d,
    (∀ name c, Children.get (fs.dirs d).children name = some c → c.nid < fs.next) ∧
    (∀ name p, (fs.dirs d).parent = some (name, p) → p < fs.next)

/-- Heap monotonicity along a walk: the counter never decreases, existing
directories keep their parent edges, existing children bindings persist,
and live directories stay live. -/
def FS.Mono (fs fs' : FS) : Prop :=
  fs.next ≤ fs'.next ∧
  (∀ d, d < fs.next → (fs'.dirs d).parent = (fs.dirs d).parent) ∧
  (∀ d name c, d < fs.next → Children.get (fs.dirs d).children name = some c →
      Children.get (fs'.dirs d).children name = some c) ∧
  (∀ p, p < fs.next → fs.dirAlive p = true → fs'.dirAlive p = true)

theorem mono_refl (fs : FS) : fs.Mono fs :=
  ⟨Nat.le_refl _, fun _ _ => rfl, fun _ _ _ _ h => h, fun _ _ h => h⟩

theorem mono_trans {a b c : FS} (h1 : a.Mono b) (h2 : b.Mono c) : a.Mono c := by
  obtain ⟨hn1, hp1, hc1, ha1⟩ := h1
  obtain ⟨hn2, hp2, hc2, ha2⟩ := h2
  refine ⟨Nat.le_trans hn1 hn2, ?_, ?_, ?_⟩
  · intro d hd
    rw [hp2 d (Nat.lt_of_lt_of_le hd hn1), hp1 d hd]
  · intro d name cc hd hg
    exact hc2 d name cc (Nat.lt_of_lt_of_le hd hn1) (hc1 d name cc hd hg)
  · intro p hp ha
    exact ha2 p (Nat.lt_of_lt_of_le hp hn1) (ha1 p hp ha)

/-- A successful parent upgrade stays below the counter. -/
theorem parent_some_bound (fs : FS) (d p : Nat) (hwf : fs.WF)
    (h : Directory.parent fs d = some p) : p < fs.next := by
  unfold Directory.parent at h
  cases he : (fs.dirs d).parent with
  | none => rw [he] at h; simp at h
  | some pr =>
    rcases pr with ⟨nm, q⟩
    rw [he] at h
    by_cases ha : fs.dirAlive q <;> simp [ha] at h
    have := (hwf d).2 nm q he
    omega

/-- A successful parent upgrade exposes the stored edge and its
liveness. -/
theorem parent_some_elim (fs : FS) (d p : Nat)
    (h : Directory.parent fs d = some p) :
    ∃ nm, (fs.dirs d).parent = some (nm, p) ∧ fs.dirAlive p = true := by
  unfold Directory.parent at h
  cases he : (fs.dirs d).parent with
  | none => rw [he] at h; simp at h
  | some pr =>
    rcases pr with ⟨nm, q⟩
    rw [he] at h
    by_cases ha : fs.dirAlive q <;> simp [ha] at h
    subst h
    exact ⟨nm, rfl, ha⟩

/-- The vacant `CreateDefault` insertion preserves well-formedness, is
monotone, and leaves the returned node bound under `name` with its id in
range. -/
theorem action_cd_wf_mono (fs : FS) (d : Nat) (name : String) (gt : GetType)
    (hwf : fs.WF) (hd : d < fs.next)
    (hmiss : Children.get (fs.dirs d).children name = none) :
    ((Directory.get_node_named_child_action fs d name GetAction.CreateDefault gt).1).WF ∧
    fs.Mono (Directory.get_node_named_child_action fs d name GetAction.CreateDefault gt).1 ∧
    (∀ c, (Directory.get_node_named_child_action fs d name
        GetAction.CreateDefault gt).2 = Except.ok (some c) →
      c.nid < ((Directory.get_node_named_child_action fs d name
          GetAction.CreateDefault gt).1).next ∧
      Children.get ((((Directory.get_node_named_child_action fs d name
          GetAction.CreateDefault gt).1).dirs d).children) name = some c) := by
  have hdne : d ≠ fs.next := Nat.ne_of_lt hd
  cases gt with
  | Directory =>
    have hnext : ((Directory.get_node_named_child_action fs d name
        GetAction.CreateDefault GetType.Directory).1).next = fs.next + 1 := by
      simp [Directory.get_node_named_child_action, hmiss, Directory.create, FS.insertChild]
    have hdirs : ∀ i, ((Directory.get_node_named_child_action fs d name
          GetAction.CreateDefault GetType.Directory).1).dirs i
        = if i = d then
            { children := (name, Node.directory fs.next) :: (fs.dirs d).children,
              parent := (fs.dirs d).parent }
          else if i = fs.next then { children := [], parent := some (name, d) }
          else fs.dirs i := by
      intro i
      by_cases h1 : i = d
      · subst h1
        simp [Directory.get_node_named_child_action, hmiss, Directory.create,
          FS.insertChild, hdne]
      · by_cases h2 : i = fs.next <;>
          simp [Directory.get_node_named_child_action, hmiss, Directory.create,
            FS.insertChild, h1, h2, Ne.symm hdne]
    have halive : ∀ i, ((Directory.get_node_named_child_action fs d name
          GetAction.CreateDefault GetType.Directory).1).dirAlive i
        = if i = fs.next then true else fs.dirAlive i := by
      intro i
      simp [Directory.get_node_named_child_action, hmiss, Directory.create, FS.insertChild]
    have hsnd : (Directory.get_node_named_child_action fs d name
        GetAction.CreateDefault GetType.Directory).2
        = Except.ok (some (Node.directory fs.next)) := by
      simp [Directory.get_node_named_child_action, hmiss, Directory.create, FS.insertChild]
    refine ⟨?_, ⟨?_, ?_, ?_, ?_⟩, ?_⟩
    · intro d2
      constructor
      · intro name2 c2 hget
        rw [hnext]
        rw [hdirs d2] at hget
        by_cases h1 : d2 = d
        · rw [if_pos h1] at hget
          by_cases hn : name = name2
          · simp [Children.get, hn] at hget
            rw [← hget]
            exact Nat.lt_succ_self _
          · simp only [Children.get, if_neg hn] at hget
            exact Nat.lt_trans ((hwf d).1 name2 c2 hget) (Nat.lt_succ_self _)
        · rw [if_neg h1] at hget
          by_cases h2 : d2 = fs.next
          · rw [if_pos h2] at hget
            simp [Children.get] at hget
          · rw [if_neg h2] at hget
            exact Nat.lt_trans ((hwf d2).1 name2 c2 hget) (Nat.lt_succ_self _)
      · intro name2 p hp
        rw [hnext]
        rw [hdirs d2] at hp
        by_cases h1 : d2 = d
        · rw [if_pos h1] at hp
          exact Nat.lt_trans ((hwf d).2 name2 p hp) (Nat.lt_succ_self _)
        · rw [if_neg h1] at hp
          by_cases h2 : d2 = fs.next
          · rw [if_pos h2] at hp
            simp at hp
            omega
          · rw [if_neg h2] at hp
            exact Nat.lt_trans ((hwf d2).2 name2 p hp) (Nat.lt_succ_self _)
    · rw [hnext]
      exact Nat.le_succ _
    · intro d2 hb
      rw [hdirs d2]
      by_cases h1 : d2 = d
      · rw [if_pos h1, h1]
      · have h2 : d2 ≠ fs.next := Nat.ne_of_lt hb
        rw [if_neg h1, if_neg h2]
    · intro d2 name2 c2 hb hget
      rw [hdirs d2]
      by_cases h1 : d2 = d
      · rw [if_pos h1]
        simp only [Children.get]
        by_cases hn : name = name2
        · exfalso
          rw [h1, ← hn] at hget
          rw [hget] at hmiss
          simp at hmiss
        · rw [if_neg hn, ← h1]
          exact hget
      · have h2 : d2 ≠ fs.next := Nat.ne_of_lt hb
        rw [if_neg h1, if_neg h2]
        exact hget
    · intro p hb ha
      rw [halive p, if_neg (Nat.ne_of_lt hb)]
      exact ha
    · intro c hc
      rw [hsnd] at hc
      have hceq : Node.directory fs.next = c := by
        injection hc with h3
        injection h3
      subst hceq
      constructor
      · rw [hnext]
        exact Nat.lt_succ_self _
      · rw [hdirs d, if_pos rfl]
        simp [Children.get]
  | File =>
    have hnext : ((Directory.get_node_named_child_action fs d name
        GetAction.CreateDefault GetType.File).1).next = fs.next + 1 := by
      simp [Directory.get_node_named_child_action, hmiss, File.create, FS.insertChild]
    have hdirs : ∀ i, ((Directory.get_node_named_child_action fs d name
          GetAction.CreateDefault GetType.File).1).dirs i
        = if i = d then
            { children := (name, Node.file fs.next) :: (fs.dirs d).children,
              parent := (fs.dirs d).parent }
          else fs.dirs i := by
      intro i
      by_cases h1 : i = d <;>
        simp [Directory.get_node_named_child_action, hmiss, File.create,
          FS.insertChild, h1]
    have halive : ∀ i, ((Directory.get_node_named_child_action fs d name
          GetAction.CreateDefault GetType.File).1).dirAlive i = fs.dirAlive i := by
      intro i
      simp [Directory.get_node_named_child_action, hmiss, File.create, FS.insertChild]
    have hsnd : (Directory.get_node_named_child_action fs d name
        GetAction.CreateDefault GetType.File).2
        = Except.ok (some (Node.file fs.next)) := by
      simp [Directory.get_node_named_child_action, hmiss, File.create, FS.insertChild]
    refine ⟨?_, ⟨?_, ?_, ?_, ?_⟩, ?_⟩
    · intro d2
      constructor
      · intro name2 c2 hget
        rw [hnext]
        rw [hdirs d2] at hget
        by_cases h1 : d2 = d
        · rw [if_pos h1] at hget
          by_cases hn : name = name2
          · simp [Children.get, hn] at hget
            rw [← hget]
            exact Nat.lt_succ_self _
          · simp only [Children.get, if_neg hn] at hget
            exact Nat.lt_trans ((hwf d).1 name2 c2 hget) (Nat.lt_succ_self _)
        · rw [if_neg h1] at hget
          exact Nat.lt_trans ((hwf d2).1 name2 c2 hget) (Nat.lt_succ_self _)
      · intro name2 p hp
        rw [hnext]
        rw [hdirs d2] at hp
        by_cases h1 : d2 = d
        · rw [if_pos h1] at hp
          exact Nat.lt_trans ((hwf d).2 name2 p hp) (Nat.lt_succ_self _)
        · rw [if_neg h1] at hp
          exact Nat.lt_trans ((hwf d2).2 name2 p hp) (Nat.lt_succ_self _)
    · rw [hnext]
      exact Nat.le_succ _
    · intro d2 hb
      rw [hdirs d2]
      by_cases h1 : d2 = d
      · rw [if_pos h1, h1]
      · rw [if_neg h1]
    · intro d2 name2 c2 hb hget
      rw [hdirs d2]
      by_cases h1 : d2 = d
      · rw [if_pos h1]
        simp only [Children.get]
        by_cases hn : name = name2
        · exfalso
          rw [h1, ← hn] at hget
          rw [hget] at hmiss
          simp at hmiss
        · rw [if_neg hn, ← h1]
          exact hget
      · rw [if_neg h1]
        exact hget
    · intro p hb ha
      rw [halive p]
      exact ha
    · intro c hc
      rw [hsnd] at hc
      have hceq : Node.file fs.next = c := by
        injection hc with h3
        injection h3
      subst hceq
      constructor
      · rw [hnext]
        exact Nat.lt_succ_self _
      · rw [hdirs d, if_pos rfl]
        simp [Children.get]

/-- A full named-segment step preserves well-formedness, is monotone, and
any node it yields is bound under `name` with its id in range. -/
theorem step_named_wf_mono (fs : FS) (d : Nat) (name : String) (pos : GetPosition)
    (ga : GetAction) (gt : GetType) (hwf : fs.WF) (hd : d < fs.next) :
    ((Directory.get_node_named fs d name pos ga gt).1).WF ∧
    fs.Mono (Directory.get_node_named fs d name pos ga gt).1 ∧
    (∀ c, (Directory.get_node_named fs d name pos ga gt).2 = Except.ok (some c) →
      c.nid < ((Directory.get_node_named fs d name pos ga gt).1).next ∧
      Children.get ((((Directory.get_node_named fs d name pos ga gt).1).dirs d).children)
          name = some c) := by
  cases hc : Directory.get_node_named_child fs d name with
  | some node =>
    have hc2 : Children.get (fs.dirs d).children name = some node := hc
    have hres : Directory.get_node_named fs d name pos ga gt
        = (fs, Except.ok (some node)) := by
      simp [Directory.get_node_named, hc]
    rw [hres]
    refine ⟨hwf, mono_refl fs, ?_⟩
    intro c h2
    have hceq : node = c := by
      injection h2 with h3
      injection h3
    subst hceq
    exact ⟨(hwf d).1 name node hc2, hc2⟩
  | none =>
    have hmiss : Children.get (fs.dirs d).children name = none := hc
    cases ga with
    | ReturnNone =>
      have hres : Directory.get_node_named fs d name pos GetAction.ReturnNone gt
          = (fs, Except.ok none) := by
        cases pos <;>
          simp [Directory.get_node_named, Directory.get_node_named_child_action, hc]
      rw [hres]
      refine ⟨hwf, mono_refl fs, ?_⟩
      intro c h2
      exact absurd h2 (by simp)
    | CreateDefault =>
      cases pos with
      | Child =>
        have hres : Directory.get_node_named fs d name GetPosition.Child
            GetAction.CreateDefault gt
            = Directory.get_node_named_child_action fs d name GetAction.CreateDefault gt := by
          simp [Directory.get_node_named, hc]
        rw [hres]
        exact action_cd_wf_mono fs d name gt hwf hd hmiss
      | Parent =>
        have hres : Directory.get_node_named fs d name GetPosition.Parent
            GetAction.CreateDefault gt
            = Directory.get_node_named_child_action fs d name GetAction.CreateDefault
                GetType.Directory := by
          simp [Directory.get_node_named, hc]
        rw [hres]
        exact action_cd_wf_mono fs d name GetType.Directory hwf hd hmiss

/-- A whole walk preserves well-formedness, is monotone, and any node it
yields has its id in range. -/
theorem loop_wf_mono (components : List Component) :
    ∀ (fs : FS) (current : Option Node) (ga : GetAction) (gt : GetType),
      fs.WF → (∀ n, current = some n → n.nid < fs.next) →
      ((Directory.get_node_loop fs current components ga gt).1).WF ∧
      fs.Mono (Directory.get_node_loop fs current components ga gt).1 ∧
      (∀ c, (Directory.get_node_loop fs current components ga gt).2
          = Except.ok (some c) →
        c.nid < ((Directory.get_node_loop fs current components ga gt).1).next) := by
  induction components with
  | nil =>
    intro fs current ga gt hwf hcur
    refine ⟨hwf, mono_refl fs, ?_⟩
    intro c h2
    have h3 : current = some c := by
      injection h2
    exact hcur c h3
  | cons comp rest ih =>
    intro fs current ga gt hwf hcur
    match current with
    | none =>
      simp only [Directory.get_node_loop]
      refine ⟨hwf, mono_refl fs, ?_⟩
      intro c h2
      exact absurd h2 (by simp)
    | some (Node.file f) =>
      simp only [Directory.get_node_loop]
      refine ⟨hwf, mono_refl fs, ?_⟩
      intro c h2
      exact absurd h2 (by simp)
    | some (Node.directory d) =>
      have hd : d < fs.next := hcur (Node.directory d) rfl
      cases comp with
      | CurDir => exact ih fs _ ga gt hwf hcur
      | PrefixPart =>
        simp only [Directory.get_node_loop]
        refine ⟨hwf, mono_refl fs, ?_⟩
        intro c h2
        exact absurd h2 (by simp)
      | RootDir =>
        simp only [Directory.get_node_loop]
        cases hr : Directory.get_node_root fs d with
        | ok cur =>
          have hcur2 : ∀ n, cur = some n → n.nid < fs.next := by
            intro n hn
            unfold Directory.get_node_root at hr
            cases hb : Directory.is_root fs d <;> rw [hb] at hr <;> simp at hr
            rw [hn] at hr
            injection hr with h3
            rw [← h3]
            exact hd
          exact ih fs cur ga gt hwf hcur2
        | error e =>
          refine ⟨hwf, mono_refl fs, ?_⟩
          intro c h2
          exact absurd h2 (by simp)
      | ParentDir =>
        simp only [Directory.get_node_loop]
        cases hp : Directory.get_node_parent fs d with
        | ok cur =>
          have hcur2 : ∀ n, cur = some n → n.nid < fs.next := by
            intro n hn
            unfold Directory.get_node_parent at hp
            cases hb : Directory.parent fs d <;> rw [hb] at hp <;> simp at hp
            rw [hn] at hp
            injection hp with h3
            rw [← h3]
            exact parent_some_bound fs d _ hwf hb
          exact ih fs cur ga gt hwf hcur2
        | error e =>
          refine ⟨hwf, mono_refl fs, ?_⟩
          intro c h2
          exact absurd h2 (by simp)
      | Normal name =>
        simp only [Directory.get_node_loop]
        obtain ⟨hwf1, hmono1, hres1⟩ := step_named_wf_mono fs d name
          (GetPosition.from_next (rest.head?.map fun _ => ()))
          ga gt hwf hd
        rcases hm : Directory.get_node_named fs d name
            (GetPosition.from_next (rest.head?.map fun _ => ())) ga gt with ⟨fs1, r⟩
        rw [hm] at hwf1 hmono1 hres1
        cases r with
        | ok cur =>
          have hcur2 : ∀ n, cur = some n → n.nid < fs1.next := by
            intro n hn
            exact (hres1 n (by rw [hn])).1
          obtain ⟨hwf2, hmono2, hres2⟩ := ih fs1 cur ga gt hwf1 hcur2
          exact ⟨hwf2, mono_trans hmono1 hmono2, hres2⟩
        | error e =>
          refine ⟨hwf1, hmono1, ?_⟩
          intro c h2
          exact absurd h2 (by simp)

/-- Replaying a successful `CreateDefault` walk on its own result heap
under `ReturnNone` finds every node the first walk visited or created and
returns the same node, without further mutation. -/
theorem loop_replay (components : List Component) :
    ∀ (fs : FS) (current : Option Node) (gt : GetType) (fs' : FS) (c : Node),
      fs.WF → (∀ n, current = some n → n.nid < fs.next) →
      Directory.get_node_loop fs current components GetAction.CreateDefault gt
        = (fs', Except.ok (some c)) →
      Directory.get_node_loop fs' current components GetAction.ReturnNone gt
        = (fs', Except.ok (some c)) := by
  induction components with
  | nil =>
    intro fs current gt fs' c hwf hcur h
    simp only [Directory.get_node_loop] at h ⊢
    have h2 : (Except.ok current : Except GetError (Option Node)) = Except.ok (some c) :=
      congrArg Prod.snd h
    rw [h2]
  | cons comp rest ih =>
    intro fs current gt fs' c hwf hcur h
    match current with
    | none => simp [Directory.get_node_loop] at h
    | some (Node.file f) => simp [Directory.get_node_loop] at h
    | some (Node.directory d) =>
      have hd : d < fs.next := hcur (Node.directory d) rfl
      cases comp with
      | CurDir =>
        exact ih fs (some (Node.directory d)) gt fs' c hwf hcur h
      | PrefixPart => simp [Directory.get_node_loop] at h
      | RootDir =>
        simp only [Directory.get_node_loop] at h ⊢
        cases hr : Directory.get_node_root fs d with
        | error e => rw [hr] at h; simp at h
        | ok cur =>
          rw [hr] at h
          -- the Root step succeeds only at a root, with the same node
          unfold Directory.get_node_root at hr
          cases hb : Directory.is_root fs d <;> rw [hb] at hr <;> simp at hr
          subst hr
          have h2 : Directory.get_node_loop fs (some (Node.directory d)) rest
              GetAction.CreateDefault gt = (fs', Except.ok (some c)) := h
          have hmono : fs.Mono fs' := by
            have h3 := (loop_wf_mono rest fs (some (Node.directory d))
              GetAction.CreateDefault gt hwf hcur).2.1
            rw [h2] at h3
            exact h3
          have hb' : Directory.is_root fs' d = true := by
            unfold Directory.is_root at hb ⊢
            rw [hmono.2.1 d hd]
            exact hb
          have hr' : Directory.get_node_root fs' d
              = Except.ok (some (Node.directory d)) := by
            unfold Directory.get_node_root
            rw [hb']
          rw [hr']
          exact ih fs (some (Node.directory d)) gt fs' c hwf hcur h2
      | ParentDir =>
        simp only [Directory.get_node_loop] at h ⊢
        cases hp : Directory.get_node_parent fs d with
        | error e => rw [hp] at h; simp at h
        | ok cur =>
          rw [hp] at h
          unfold Directory.get_node_parent at hp
          cases hb : Directory.parent fs d <;> rw [hb] at hp <;> simp at hp
          subst hp
          rename_i p
          have h2 : Directory.get_node_loop fs (some (Node.directory p)) rest
              GetAction.CreateDefault gt = (fs', Except.ok (some c)) := h
          have hpb : p < fs.next := parent_some_bound fs d p hwf hb
          have hcur2 : ∀ n, some (Node.directory p) = some n → n.nid < fs.next := by
            intro n hn
            injection hn with h3
            rw [← h3]
            exact hpb
          have hmono : fs.Mono fs' := by
            have h3 := (loop_wf_mono rest fs (some (Node.directory p))
              GetAction.CreateDefault gt hwf hcur2).2.1
            rw [h2] at h3
            exact h3
          obtain ⟨nm, hedge, halive⟩ := parent_some_elim fs d p hb
          have hb' : Directory.parent fs' d = some p := by
            unfold Directory.parent
            rw [hmono.2.1 d hd, hedge]
            simp [hmono.2.2.2 p hpb halive]
          have hp' : Directory.get_node_parent fs' d
              = Except.ok (some (Node.directory p)) := by
            unfold Directory.get_node_parent
            rw [hb']
          rw [hp']
          exact ih fs (some (Node.directory p)) gt fs' c hwf hcur2 h2
      | Normal name =>
        simp only [Directory.get_node_loop] at h ⊢
        obtain ⟨hwf1, hmono1, hres1⟩ := step_named_wf_mono fs d name
          (GetPosition.from_next (rest.head?.map fun _ => ()))
          GetAction.CreateDefault gt hwf hd
        obtain ⟨n0, hn0⟩ := named_create_default_some fs d name
          (GetPosition.from_next (rest.head?.map fun _ => ())) gt
        rcases hm : Directory.get_node_named fs d name
            (GetPosition.from_next (rest.head?.map fun _ => ()))
            GetAction.CreateDefault gt with ⟨fs1, r⟩
        rw [hm] at h hwf1 hmono1 hres1 hn0
        simp only at hn0
        subst hn0
        have h2 : Directory.get_node_loop fs1 (some n0) rest
            GetAction.CreateDefault gt = (fs', Except.ok (some c)) := h
        obtain ⟨hbound, hentry⟩ := hres1 n0 rfl
        have hcur2 : ∀ n, some n0 = some n → n.nid < fs1.next := by
          intro n hn
          injection hn with h3
          rw [← h3]
          exact hbound
        have hmono2 : fs1.Mono fs' := by
          have h3 := (loop_wf_mono rest fs1 (some n0)
            GetAction.CreateDefault gt hwf1 hcur2).2.1
          rw [h2] at h3
          exact h3
        have hentry' : Children.get ((fs'.dirs d).children) name = some n0 :=
          hmono2.2.2.1 d name n0 (Nat.lt_of_lt_of_le hd hmono1.1) hentry
        have hstep' : Directory.get_node_named fs' d name
            (GetPosition.from_next (rest.head?.map fun _ => ()))
            GetAction.ReturnNone gt = (fs', Except.ok (some n0)) := by
          rw [named_return_none]
          unfold Directory.get_node_named_child
          rw [hentry']
        rw [hstep']
        exact ih fs1 (some n0) gt fs' c hwf1 hcur2 h2

/-- C4: round trip — when `get_file_default` creates/resolves a file at a
path, resolving that same path again with `get_file` (return-none policy)
on the resulting heap returns `Some` of the very same node handle (the
same underlying node id), with the heap unchanged. -/
theorem c4_round_trip (fs : FS) (d : Nat) (path : List Component) (fs' : FS) (f : Nat)
    (hwf : fs.WF) (hd : d < fs.next)
    (h : Directory.get_file_default fs d path = (fs', Except.ok f)) :
    Directory.get_file fs' d path = (fs', Except.ok (some f)) := by
  rcases hres : Directory.get_node fs d path GetAction.CreateDefault GetType.File
    with ⟨fs1, r⟩
  unfold Directory.get_file_default at h
  rw [hres] at h
  cases r with
  | error e => simp at h
  | ok o =>
    cases o with
    | none => simp at h
    | some n =>
      cases n with
      | directory x => simp at h
      | file f0 =>
        have hfs1 : fs1 = fs' := congrArg Prod.fst h
        have hf0 : f0 = f := by
          have h3 : (Except.ok f0 : Except GetFileError Nat) = Except.ok f :=
            congrArg Prod.snd h
          injection h3
        subst hfs1
        subst hf0
        have hcur : ∀ n, (some (Node.directory d) : Option Node) = some n →
            n.nid < fs.next := by
          intro n hn
          injection hn with h3
          rw [← h3]
          exact hd
        have hrn := loop_replay path fs (some (Node.directory d)) GetType.File fs1
          (Node.file f0) hwf hcur hres
        unfold Directory.get_file Directory.get_node
        rw [hrn]

/-- The path `/x/y/z.txt` as a component sequence. -/
def PathXYZ : List Component :=
  [Component.RootDir, Component.Normal "x", Component.Normal "y",
   Component.Normal "z.txt"]

/-- The fresh heap is well formed. -/
theorem FS0_wf : FS0.WF := by
  intro d
  have hdir : FS0.dirs d = { children := [], parent := none } := by
    by_cases h0 : d = 0 <;>
      simp [FS0, FileSystem.new, Directory.create_root, Directory.create, FS.blank, h0]
  constructor
  · intro name c h
    rw [hdir] at h
    simp [Children.get] at h
  · intro name p h
    rw [hdir] at h
    simp at h

/-- Witness for C4: creating `/x/y/z.txt` on a fresh tree yields file 3,
and re-resolving the same path with `get_file` returns exactly that
node. -/
theorem c4_round_trip_witness :
    Directory.get_file (Directory.get_file_default FS0 0 PathXYZ).1 0 PathXYZ
      = ((Directory.get_file_default FS0 0 PathXYZ).1, Except.ok (some 3)) :=
  c4_round_trip FS0 0 PathXYZ (Directory.get_file_default FS0 0 PathXYZ).1 3
    FS0_wf (by decide) rfl

end Memfs
